import Mathlib

/-!
Verification of the NuScape windows-agent core against its specification.

The Rust source is shallowly embedded as executable Lean definitions:
timestamps (`DateTime<Utc>`) become `Int` milliseconds since an arbitrary
epoch, `Duration` becomes `Int` milliseconds, `u64`/`usize` become `Nat`,
UUIDs become `String`.  JSON serialization length (`to_json_string().len()`)
is abstracted as an explicit function parameter `jsonLen : UsageBatch → Nat`;
all theorems about the chunker and the queue hold for every such function.
-/

/-! ## Data model (src/windows-agent/src/models.rs) -/

structure UsageSession where
  package : String
  window_start : Int
  window_end : Int
  total_ms : Nat
  foreground : Bool
deriving DecidableEq

structure NetworkDelta where
  package : String
  sampled_at : Int
  wifi_bytes : Nat
  cellular_bytes : Nat
deriving DecidableEq

structure NetworkCounters where
  wifi_total : Nat
  cell_total : Nat
  sampled_at : Int
deriving DecidableEq

/-- `battery_pct` is `f64` in the source; no claim inspects its value, so it
is embedded as `Int` to keep equality decidable. -/
structure DeviceStatus where
  usage_access : Bool
  accessibility : Bool
  overlay : Bool
  vpn : Bool
  battery_pct : Int
  time_zone_id : String
deriving DecidableEq

structure UsageBatch where
  device_id : String
  sent_at : Int
  sessions : List UsageSession
  network_deltas : List NetworkDelta
  status : Option DeviceStatus
deriving DecidableEq

def MAX_PAYLOAD_BYTES : Nat := 1000000

def DEFAULT_CHUNK_SESSION_LIMIT : Nat := 100

def DEFAULT_CHUNK_BYTE_LIMIT : Nat := 100000

/-! ## Chunker (`UsageBatch::chunked`, models.rs lines 103-169)

The Rust loop builds each chunk from a slice `sessions[index..end]` with
`end = min(index + max_sessions, len)`, then shrinks `end` while the
serialized chunk exceeds `max_bytes` and more than one session remains.
`include_meta` is true only for the first chunk.  The loop advances by at
least one session per chunk whenever `max_sessions ≥ 1`; for
`max_sessions = 0` the Rust loop never terminates, which the embedding
reflects by running out of fuel (fuel = number of sessions). -/

def mkChunk (b : UsageBatch) (includeMeta : Bool) (sessions : List UsageSession) : UsageBatch :=
  { device_id := b.device_id
    sent_at := b.sent_at
    sessions := sessions
    network_deltas := if includeMeta then b.network_deltas else []
    status := if includeMeta then b.status else none }

/-- The inner `while payload_bytes > max_bytes && slice.len() > 1` loop:
repeatedly drop the last session of the slice.  Fuel-indexed so that the
definition is structural; callers pass the slice length as fuel, which is
always sufficient. -/
def shrinkChunk (jsonLen : UsageBatch → Nat) (mk : List UsageSession → UsageBatch)
    (maxBytes : Nat) : Nat → List UsageSession → List UsageSession
  | 0, slice => slice
  | fuel + 1, slice =>
      if jsonLen (mk slice) > maxBytes ∧ slice.length > 1 then
        shrinkChunk jsonLen mk maxBytes fuel slice.dropLast
      else slice

/-- The slice of sessions taken for the next chunk: first `take max_sessions`,
then byte-shrinking. -/
def chunkSlice (jsonLen : UsageBatch → Nat) (maxSessions maxBytes : Nat) (b : UsageBatch)
    (includeMeta : Bool) (rest : List UsageSession) : List UsageSession :=
  shrinkChunk jsonLen (mkChunk b includeMeta) maxBytes (rest.take maxSessions).length
    (rest.take maxSessions)

def chunkedGo (jsonLen : UsageBatch → Nat) (maxSessions maxBytes : Nat) (b : UsageBatch) :
    Nat → List UsageSession → Bool → List UsageBatch
  | 0, _, _ => []
  | _ + 1, [], _ => []
  | fuel + 1, s :: rest, includeMeta =>
      mkChunk b includeMeta (chunkSlice jsonLen maxSessions maxBytes b includeMeta (s :: rest)) ::
        chunkedGo jsonLen maxSessions maxBytes b fuel
          ((s :: rest).drop
            (chunkSlice jsonLen maxSessions maxBytes b includeMeta (s :: rest)).length) false

/-- `UsageBatch::chunked`.  The trailing `if result.is_empty()` push of the
Rust source is kept (it is reachable only when the fuel runs out, i.e. when
`max_sessions = 0`). -/
def UsageBatch.chunked (jsonLen : UsageBatch → Nat) (b : UsageBatch)
    (maxSessions maxBytes : Nat) : List UsageBatch :=
  if b.sessions = [] then [b]
  else
    let result := chunkedGo jsonLen maxSessions maxBytes b b.sessions.length b.sessions true
    if result = [] then [mkChunk b true []] else result

theorem shrinkChunk_eq_take (jsonLen : UsageBatch → Nat) (mk : List UsageSession → UsageBatch)
    (maxBytes : Nat) :
    ∀ (fuel : Nat) (slice : List UsageSession), slice ≠ [] →
      ∃ k, 1 ≤ k ∧ k ≤ slice.length ∧
        shrinkChunk jsonLen mk maxBytes fuel slice = slice.take k := by
  intro fuel
  induction fuel with
  | zero =>
      intro slice hne
      refine ⟨slice.length, ?_, Nat.le_refl _, ?_⟩
      · have : 0 < slice.length := List.length_pos.mpr hne
        omega
      · simp [shrinkChunk]
  | succ fuel ih =>
      intro slice hne
      rw [shrinkChunk]
      split
      · rename_i hcond
        have hlen : slice.length > 1 := hcond.2
        have hdrop : slice.dropLast ≠ [] := by
          have : slice.dropLast.length = slice.length - 1 := List.length_dropLast slice
          intro hnil
          rw [hnil] at this
          simp at this
          omega
        obtain ⟨k, hk1, hk2, hk3⟩ := ih slice.dropLast hdrop
        refine ⟨min k (slice.length - 1), ?_, ?_, ?_⟩
        · have : slice.dropLast.length = slice.length - 1 := List.length_dropLast slice
          omega
        · omega
        · rw [hk3, List.dropLast_eq_take, List.take_take]
      · exact ⟨slice.length, by
          have : 0 < slice.length := List.length_pos.mpr hne
          omega, Nat.le_refl _, by simp⟩

theorem chunkSlice_spec (jsonLen : UsageBatch → Nat) (maxSessions maxBytes : Nat)
    (b : UsageBatch) (includeMeta : Bool) (s : UsageSession) (rest : List UsageSession)
    (hS : 0 < maxSessions) :
    ∃ k, 1 ≤ k ∧ k ≤ (s :: rest).length ∧
      chunkSlice jsonLen maxSessions maxBytes b includeMeta (s :: rest) = (s :: rest).take k ∧
      (chunkSlice jsonLen maxSessions maxBytes b includeMeta (s :: rest)).length = k := by
  have htake_ne : (s :: rest).take maxSessions ≠ [] := by
    obtain ⟨m, rfl⟩ := Nat.exists_eq_succ_of_ne_zero (Nat.pos_iff_ne_zero.mp hS)
    simp
  obtain ⟨k, hk1, hk2, hk3⟩ :=
    shrinkChunk_eq_take jsonLen (mkChunk b includeMeta) maxBytes
      ((s :: rest).take maxSessions).length ((s :: rest).take maxSessions) htake_ne
  have hlen_take : ((s :: rest).take maxSessions).length = min maxSessions (s :: rest).length :=
    List.length_take _ _
  have hkS : k ≤ maxSessions := by omega
  have hkL : k ≤ (s :: rest).length := by omega
  refine ⟨k, hk1, hkL, ?_, ?_⟩
  · unfold chunkSlice
    rw [hk3, List.take_take]
    congr 1
    omega
  · unfold chunkSlice
    rw [hk3, List.take_take, List.length_take]
    omega

theorem chunkedGo_join (jsonLen : UsageBatch → Nat) (maxSessions maxBytes : Nat)
    (b : UsageBatch) (hS : 0 < maxSessions) :
    ∀ (fuel : Nat) (rest : List UsageSession) (includeMeta : Bool), rest.length ≤ fuel →
      ((chunkedGo jsonLen maxSessions maxBytes b fuel rest includeMeta).map
        (fun c => c.sessions)).flatten = rest := by
  intro fuel
  induction fuel with
  | zero =>
      intro rest includeMeta hlen
      have : rest = [] := List.length_eq_zero.mp (Nat.le_zero.mp hlen)
      subst this
      simp [chunkedGo]
  | succ fuel ih =>
      intro rest includeMeta hlen
      cases rest with
      | nil => simp [chunkedGo]
      | cons s rest' =>
          obtain ⟨k, hk1, hk2, hkeq, hklen⟩ :=
            chunkSlice_spec jsonLen maxSessions maxBytes b includeMeta s rest' hS
          rw [chunkedGo]
          simp only [List.map_cons, List.flatten_cons, mkChunk]
          rw [hklen, hkeq]
          have hrec : ((s :: rest').drop k).length ≤ fuel := by
            rw [List.length_drop]
            simp only [List.length_cons] at hlen ⊢
            omega
          rw [ih ((s :: rest').drop k) false hrec]
          exact List.take_append_drop k (s :: rest')

theorem chunkedGo_ids (jsonLen : UsageBatch → Nat) (maxSessions maxBytes : Nat)
    (b : UsageBatch) :
    ∀ (fuel : Nat) (rest : List UsageSession) (includeMeta : Bool),
      ∀ c ∈ chunkedGo jsonLen maxSessions maxBytes b fuel rest includeMeta,
        c.device_id = b.device_id ∧ c.sent_at = b.sent_at := by
  intro fuel
  induction fuel with
  | zero => intro rest includeMeta c hc; simp [chunkedGo] at hc
  | succ fuel ih =>
      intro rest includeMeta c hc
      cases rest with
      | nil => simp [chunkedGo] at hc
      | cons s rest' =>
          rw [chunkedGo] at hc
          rcases List.mem_cons.mp hc with h | h
          · subst h; exact ⟨rfl, rfl⟩
          · exact ih _ false c h

theorem chunkedGo_meta_false (jsonLen : UsageBatch → Nat) (maxSessions maxBytes : Nat)
    (b : UsageBatch) :
    ∀ (fuel : Nat) (rest : List UsageSession),
      ∀ c ∈ chunkedGo jsonLen maxSessions maxBytes b fuel rest false,
        c.network_deltas = [] ∧ c.status = none := by
  intro fuel
  induction fuel with
  | zero => intro rest c hc; simp [chunkedGo] at hc
  | succ fuel ih =>
      intro rest c hc
      cases rest with
      | nil => simp [chunkedGo] at hc
      | cons s rest' =>
          rw [chunkedGo] at hc
          rcases List.mem_cons.mp hc with h | h
          · subst h; exact ⟨rfl, rfl⟩
          · exact ih _ c h

theorem chunked_ne_nil (jsonLen : UsageBatch → Nat) (b : UsageBatch)
    (maxSessions maxBytes : Nat) :
    UsageBatch.chunked jsonLen b maxSessions maxBytes ≠ [] := by
  unfold UsageBatch.chunked
  split
  · simp
  · show (if chunkedGo jsonLen maxSessions maxBytes b b.sessions.length b.sessions true = []
        then [mkChunk b true []]
        else chunkedGo jsonLen maxSessions maxBytes b b.sessions.length b.sessions true) ≠ []
    split
    · simp
    · assumption

/-- C1: for every chunking of a batch `b` with limits `(S, B)` with `S ≥ 1`
(the source's chunk loop does not terminate for `S = 0`, so no chunking is
produced there), concatenating the sessions of all produced chunks in order
equals `b.sessions`; the first chunk's `network_deltas` equal
`b.network_deltas` and its `status` equals `b.status`; every chunk after the
first has empty `network_deltas` and absent `status`; and all chunks carry
the same `device_id` and `sent_at` as `b`. -/
theorem chunked_spec (jsonLen : UsageBatch → Nat) (maxSessions maxBytes : Nat)
    (b : UsageBatch) (hS : 0 < maxSessions) :
    ((UsageBatch.chunked jsonLen b maxSessions maxBytes).map (fun c => c.sessions)).flatten
        = b.sessions
    ∧ (∀ c0, (UsageBatch.chunked jsonLen b maxSessions maxBytes).head? = some c0 →
        c0.network_deltas = b.network_deltas ∧ c0.status = b.status)
    ∧ (∀ c ∈ (UsageBatch.chunked jsonLen b maxSessions maxBytes).tail,
        c.network_deltas = [] ∧ c.status = none)
    ∧ (∀ c ∈ UsageBatch.chunked jsonLen b maxSessions maxBytes,
        c.device_id = b.device_id ∧ c.sent_at = b.sent_at) := by
  by_cases hempty : b.sessions = []
  · have hchunk : UsageBatch.chunked jsonLen b maxSessions maxBytes = [b] := by
      unfold UsageBatch.chunked
      simp [hempty]
    refine ⟨?_, ?_, ?_, ?_⟩
    · rw [hchunk]; simp [hempty]
    · intro c0 hc0; rw [hchunk] at hc0; simp at hc0; subst hc0; exact ⟨rfl, rfl⟩
    · intro c hc; rw [hchunk] at hc; simp at hc
    · intro c hc; rw [hchunk] at hc; simp at hc; subst hc; exact ⟨rfl, rfl⟩
  · obtain ⟨s, rest, hbs⟩ := List.exists_cons_of_ne_nil hempty
    have hgo : chunkedGo jsonLen maxSessions maxBytes b b.sessions.length b.sessions true =
        mkChunk b true (chunkSlice jsonLen maxSessions maxBytes b true (s :: rest)) ::
          chunkedGo jsonLen maxSessions maxBytes b rest.length
            ((s :: rest).drop
              (chunkSlice jsonLen maxSessions maxBytes b true (s :: rest)).length) false := by
      rw [hbs]
      simp only [List.length_cons]
      rw [chunkedGo]
    have hchunk : UsageBatch.chunked jsonLen b maxSessions maxBytes =
        mkChunk b true (chunkSlice jsonLen maxSessions maxBytes b true (s :: rest)) ::
          chunkedGo jsonLen maxSessions maxBytes b rest.length
            ((s :: rest).drop
              (chunkSlice jsonLen maxSessions maxBytes b true (s :: rest)).length) false := by
      unfold UsageBatch.chunked
      rw [if_neg hempty, hgo]
      simp
    refine ⟨?_, ?_, ?_, ?_⟩
    · have hj := chunkedGo_join jsonLen maxSessions maxBytes b hS b.sessions.length
        b.sessions true (Nat.le_refl _)
      rw [hchunk, ← hgo]
      exact hj
    · intro c0 hc0
      rw [hchunk] at hc0
      simp only [List.head?_cons, Option.some.injEq] at hc0
      subst hc0
      exact ⟨rfl, rfl⟩
    · intro c hc
      rw [hchunk] at hc
      simp only [List.tail_cons] at hc
      exact chunkedGo_meta_false jsonLen maxSessions maxBytes b _ _ c hc
    · intro c hc
      rw [hchunk] at hc
      rcases List.mem_cons.mp hc with h | h
      · subst h; exact ⟨rfl, rfl⟩
      · exact chunkedGo_ids jsonLen maxSessions maxBytes b _ _ false c h

def c1_batch : UsageBatch :=
  { device_id := "dev"
    sent_at := 7
    sessions :=
      [⟨"a", 0, 5000, 5000, true⟩, ⟨"b", 6000, 12000, 6000, true⟩,
        ⟨"c", 20000, 26000, 6000, true⟩]
    network_deltas := [⟨"iface::eth", 7, 10, 0⟩]
    status := some ⟨true, false, false, true, -1, "UTC"⟩ }

theorem chunked_spec_witness :
    0 < 2
    ∧ (((UsageBatch.chunked (fun _ => 5) c1_batch 2 3).map (fun c => c.sessions)).flatten
          = c1_batch.sessions
      ∧ (∀ c0, (UsageBatch.chunked (fun _ => 5) c1_batch 2 3).head? = some c0 →
          c0.network_deltas = c1_batch.network_deltas ∧ c0.status = c1_batch.status)
      ∧ (∀ c ∈ (UsageBatch.chunked (fun _ => 5) c1_batch 2 3).tail,
          c.network_deltas = [] ∧ c.status = none)
      ∧ (∀ c ∈ UsageBatch.chunked (fun _ => 5) c1_batch 2 3,
          c.device_id = c1_batch.device_id ∧ c.sent_at = c1_batch.sent_at)) :=
  ⟨by decide, chunked_spec (fun _ => 5) 2 3 c1_batch (by decide)⟩

/-! ## Session tracker (src/windows-agent/src/collectors/sessions.rs)

`RawSession.stop` embeds the Rust field `end` (`end` is a Lean keyword). -/

def MIN_SESSION_MS : Int := 5000

def MERGE_GAP_MS : Int := 10000

def MAX_SESSION_MS : Int := 8 * 60 * 60 * 1000

structure RawSession where
  package : String
  start : Int
  stop : Int
deriving DecidableEq

structure ActiveSession where
  package : String
  started_at : Int
  last_seen : Int
deriving DecidableEq

structure TrackerState where
  current : Option ActiveSession
  completed : List RawSession
deriving DecidableEq

def TrackerState.finalize_current (st : TrackerState) : TrackerState :=
  match st.current with
  | none => st
  | some active =>
      let e := if active.last_seen < active.started_at then active.started_at
               else active.last_seen
      let total_ms := e - active.started_at
      if total_ms ≥ MIN_SESSION_MS then
        ⟨none, st.completed ++ [⟨active.package, active.started_at, e⟩]⟩
      else ⟨none, st.completed⟩

def TrackerState.observe (st : TrackerState) (package : Option String) (now : Int) :
    TrackerState :=
  match st.current, package with
  | some active, some pkg =>
      if active.package = pkg then ⟨some { active with last_seen := now }, st.completed⟩
      else ⟨some ⟨pkg, now, now⟩, st.finalize_current.completed⟩
  | none, some pkg => ⟨some ⟨pkg, now, now⟩, st.completed⟩
  | some _, none => st.finalize_current
  | none, none => st

/-- `TrackerState::drain`.  The Rust `retain` both keeps sessions with
`end ≥ cutoff` in `completed` and pushes clones of exactly those into the
returned vector, so one filtered list serves both roles. -/
def TrackerState.drain (st : TrackerState) (now window : Int) :
    List RawSession × TrackerState :=
  let cutoff := now - window
  let kept := st.completed.filter fun raw => !decide (raw.stop < cutoff)
  match st.current with
  | some active =>
      if now - active.last_seen > MERGE_GAP_MS then
        let st2 := TrackerState.finalize_current ⟨st.current, kept⟩
        match st2.completed.getLast? with
        | some last =>
            if last.stop ≥ cutoff then (kept ++ [last], st2) else (kept, st2)
        | none => (kept, st2)
      else (kept, ⟨st.current, kept⟩)
  | none => (kept, ⟨st.current, kept⟩)

/-- Stable insertion by `start`; Rust's `sort_by_key` is a stable sort, and
any two stable sorts by the same key agree, so this is the same list. -/
def insert_by_start (s : RawSession) : List RawSession → List RawSession
  | [] => [s]
  | t :: ts => if s.start ≤ t.start then s :: t :: ts else t :: insert_by_start s ts

def sort_by_start (l : List RawSession) : List RawSession :=
  l.foldr insert_by_start []

/-- One step of the merge sweep.  The accumulator is the merged vector in
reverse order, so the Rust `merged.last_mut()` is the head. -/
def merge_into (acc : List RawSession) (session : RawSession) : List RawSession :=
  match acc with
  | [] => [session]
  | last :: restAcc =>
      if last.package = session.package ∧ session.start - last.stop ≤ MERGE_GAP_MS then
        (if session.stop > last.stop then { last with stop := session.stop } else last)
          :: restAcc
      else session :: last :: restAcc

def convert_session (s : RawSession) : Option UsageSession :=
  let total_ms := s.stop - s.start
  if total_ms < MIN_SESSION_MS then none
  else
    let stop2 := if total_ms > MAX_SESSION_MS then s.start + MAX_SESSION_MS else s.stop
    some ⟨s.package, s.start, stop2, (max (stop2 - s.start) 0).toNat, true⟩

def merge_and_convert (raw : List RawSession) : List UsageSession :=
  if raw = [] then []
  else (((sort_by_start raw).foldl merge_into []).reverse).filterMap convert_session

def run_samples (samples : List (Option String × Int)) : TrackerState :=
  samples.foldl (fun st sample => st.observe sample.1 sample.2) ⟨none, []⟩

/-- `SessionCollector::drain_sessions` with explicit `now`. -/
def drain_sessions (st : TrackerState) (now window : Int) : List UsageSession :=
  merge_and_convert (st.drain now window).1

/-- The S3 sample sequence of the spec: `"a"` at t=0 and t=5000, `"b"` at
t=6000, `"a"` again at t=8000 and t=13000. -/
def c2_samples : List (Option String × Int) :=
  [(some "a", 0), (some "a", 5000), (some "b", 6000), (some "a", 8000), (some "a", 13000)]

/-- C2 counterexample: on the S3 sample sequence the drain returns ONE
session, not two — the sub-minimum `"b"` entry is dropped at finalization
time and never reaches the merge sweep, so the two `"a"` intervals are
adjacent after sorting with a 3,000 ms gap ≤ 10,000 ms and are merged. -/
theorem c2_counterexample :
    (drain_sessions (run_samples c2_samples) 24000 86400000).length = 1
    ∧ ¬ (drain_sessions (run_samples c2_samples) 24000 86400000).length = 2 := by
  decide

/-- C2 amended: on the S3 sample sequence a drain (at t=24000 with a 24 h
window, so that the still-active `"a"` session is stale and finalized)
returns exactly one `"a"` session spanning 0..13000 with `total_ms = 13000`:
the two `"a"` intervals ARE merged, because after the sub-minimum `"b"`
entry is dropped they are adjacent with a 3,000 ms gap. -/
theorem c2_merged_single :
    drain_sessions (run_samples c2_samples) 24000 86400000 =
      [⟨"a", 0, 13000, 13000, true⟩] := by
  decide

theorem merge_and_convert_bounds (raw : List RawSession) :
    ∀ s ∈ merge_and_convert raw,
      5000 ≤ s.total_ms ∧ s.total_ms ≤ 28800000 ∧
        s.window_end - s.window_start = (s.total_ms : Int) := by
  intro s hs
  unfold merge_and_convert at hs
  split at hs
  · simp at hs
  · rw [List.mem_filterMap] at hs
    obtain ⟨m, hm, hconv⟩ := hs
    simp only [convert_session] at hconv
    split at hconv
    · exact absurd hconv (by simp)
    · rename_i hmin
      simp only [MIN_SESSION_MS, not_lt] at hmin
      split at hconv
      · rename_i hmax
        simp only [MAX_SESSION_MS] at hmax
        simp only [Option.some.injEq] at hconv
        subst hconv
        have h1 : m.start + 8 * 60 * 60 * 1000 - m.start = (28800000 : Int) := by ring
        simp only [MAX_SESSION_MS, h1]
        rw [max_eq_left (by norm_num : (0 : Int) ≤ 28800000)]
        refine ⟨?_, ?_, ?_⟩ <;> omega
      · rename_i hmax
        simp only [MAX_SESSION_MS, not_lt] at hmax
        simp only [Option.some.injEq] at hconv
        subst hconv
        simp only []
        rw [max_eq_left (show (0 : Int) ≤ m.stop - m.start by omega)]
        refine ⟨?_, ?_, ?_⟩ <;> omega

/-- C3: for every sequence of samples and every drain, every emitted
`UsageSession` satisfies `5,000 ≤ total_ms ≤ 28,800,000` and
`window_end − window_start = total_ms` (milliseconds). -/
theorem session_bounds_invariant (samples : List (Option String × Int)) (now window : Int) :
    ∀ s ∈ drain_sessions (run_samples samples) now window,
      5000 ≤ s.total_ms ∧ s.total_ms ≤ 28800000 ∧
        s.window_end - s.window_start = (s.total_ms : Int) :=
  fun s hs => merge_and_convert_bounds _ s hs

theorem session_bounds_invariant_witness :
    (⟨"x", 0, 6000, 6000, true⟩ : UsageSession) ∈
        drain_sessions (run_samples [(some "x", 0), (some "x", 6000)]) 20000 86400000
    ∧ (5000 ≤ (6000 : Nat) ∧ (6000 : Nat) ≤ 28800000 ∧
        (6000 : Int) - 0 = ((6000 : Nat) : Int)) :=
  ⟨by decide,
    session_bounds_invariant [(some "x", 0), (some "x", 6000)] 20000 86400000
      ⟨"x", 0, 6000, 6000, true⟩ (by decide)⟩

/-- C4: evaluating `TrackerState::drain` at a state whose stale Active dies
at finalization returns the last retained completed session TWICE: with
`completed = [{a, 0, 6000}]`, an Active `{b, 100000, 102000}` (2,000 ms
long, below the 5,000 ms minimum), `now = 113000` and a large window, the
drain result is `[{a,0,6000}, {a,0,6000}]` — the code's
`completed.last()` after the failed finalization picks up an old session,
contradicting the claim that exactly the retained sessions (once each) plus
the surviving Active are returned. -/
theorem c4_drain_duplicate :
    (TrackerState.drain ⟨some ⟨"b", 100000, 102000⟩, [⟨"a", 0, 6000⟩]⟩ 113000 1000000000).1 =
      [⟨"a", 0, 6000⟩, ⟨"a", 0, 6000⟩] := by
  decide

/-! ## Network differ (src/windows-agent/src/collectors/network.rs)

The snapshot of interfaces is a key-value list (the Rust `HashMap` iterates
in an unspecified order; every claimed property is per-entry and therefore
order-independent).  `u64::saturating_sub` is `Nat` subtraction. -/

def NetworkUsageCollector.collect (previous totals : List (String × NetworkCounters))
    (now : Int) : List NetworkDelta :=
  totals.filterMap fun entry =>
    let last := List.lookup entry.1 previous
    let delta_wifi :=
      match last with
      | some c => entry.2.wifi_total - c.wifi_total
      | none => entry.2.wifi_total
    let delta_cell :=
      match last with
      | some c => entry.2.cell_total - c.cell_total
      | none => entry.2.cell_total
    if delta_wifi = 0 ∧ delta_cell = 0 then none
    else some ⟨"iface::" ++ entry.1, now, delta_wifi, delta_cell⟩

/-- C7: for every pair of successive snapshots, every emitted delta comes
from some current interface entry and satisfies
`wifi_bytes ≤ wifi_total` and `cellular_bytes ≤ cell_total` of that entry
(`0 ≤` holds because the values are `Nat` and subtraction saturates);
an interface absent from the previous snapshot yields the full current
reading; and no delta with both categories zero is emitted. -/
theorem collect_delta_bounds (previous totals : List (String × NetworkCounters)) (now : Int) :
    ∀ d ∈ NetworkUsageCollector.collect previous totals now,
      ∃ p ∈ totals,
        d.package = "iface::" ++ p.1
        ∧ d.sampled_at = now
        ∧ d.wifi_bytes ≤ p.2.wifi_total
        ∧ d.cellular_bytes ≤ p.2.cell_total
        ∧ (List.lookup p.1 previous = none →
            d.wifi_bytes = p.2.wifi_total ∧ d.cellular_bytes = p.2.cell_total)
        ∧ ¬ (d.wifi_bytes = 0 ∧ d.cellular_bytes = 0) := by
  intro d hd
  rw [NetworkUsageCollector.collect, List.mem_filterMap] at hd
  obtain ⟨entry, hentry, hsome⟩ := hd
  refine ⟨entry, hentry, ?_⟩
  cases hlast : List.lookup entry.1 previous with
  | none =>
      simp only [hlast] at hsome
      split at hsome
      · exact absurd hsome (by simp)
      · rename_i hnz
        simp only [Option.some.injEq] at hsome
        subst hsome
        exact ⟨rfl, rfl, Nat.le_refl _, Nat.le_refl _, fun _ => ⟨rfl, rfl⟩, hnz⟩
  | some c =>
      simp only [hlast] at hsome
      split at hsome
      · exact absurd hsome (by simp)
      · rename_i hnz
        simp only [Option.some.injEq] at hsome
        subst hsome
        refine ⟨rfl, rfl, Nat.sub_le _ _, Nat.sub_le _ _, fun habs => ?_, hnz⟩
        exact absurd habs (by simp)

theorem collect_delta_bounds_witness :
    (⟨"iface::wlan", 9, 300, 0⟩ : NetworkDelta) ∈
        NetworkUsageCollector.collect [("wlan", ⟨700, 0, 1⟩)] [("wlan", ⟨1000, 0, 9⟩)] 9
    ∧ ∃ p ∈ [("wlan", (⟨1000, 0, 9⟩ : NetworkCounters))],
        (⟨"iface::wlan", 9, 300, 0⟩ : NetworkDelta).package = "iface::" ++ p.1
        ∧ (⟨"iface::wlan", 9, 300, 0⟩ : NetworkDelta).sampled_at = 9
        ∧ (⟨"iface::wlan", 9, 300, 0⟩ : NetworkDelta).wifi_bytes ≤ p.2.wifi_total
        ∧ (⟨"iface::wlan", 9, 300, 0⟩ : NetworkDelta).cellular_bytes ≤ p.2.cell_total
        ∧ (List.lookup p.1 [("wlan", (⟨700, 0, 1⟩ : NetworkCounters))] = none →
            (⟨"iface::wlan", 9, 300, 0⟩ : NetworkDelta).wifi_bytes = p.2.wifi_total
              ∧ (⟨"iface::wlan", 9, 300, 0⟩ : NetworkDelta).cellular_bytes = p.2.cell_total)
        ∧ ¬ ((⟨"iface::wlan", 9, 300, 0⟩ : NetworkDelta).wifi_bytes = 0
              ∧ (⟨"iface::wlan", 9, 300, 0⟩ : NetworkDelta).cellular_bytes = 0) :=
  ⟨by decide,
    collect_delta_bounds [("wlan", ⟨700, 0, 1⟩)] [("wlan", ⟨1000, 0, 9⟩)] 9
      ⟨"iface::wlan", 9, 300, 0⟩ (by decide)⟩

/-! ## Batch queue store (src/windows-agent/src/storage.rs)

`disk` models the persisted `usage_queue.json` contents; `persist_locked`
writes the whole queue.  File-system failures are outside the embedding, so
persistence is infallible and `enqueue` returns `Except String Unit`
mirroring the Rust `Result<()>`. -/

def UsageBatch.size_fits (jsonLen : UsageBatch → Nat) (b : UsageBatch) : Bool :=
  decide (jsonLen b ≤ MAX_PAYLOAD_BYTES)

structure BatchStoreState where
  queue : List UsageBatch
  disk : List UsageBatch
deriving DecidableEq

/-- `UsageBatchStore::enqueue`: an oversized batch is skipped with a warning
(still `Ok`), leaving both the in-memory queue and the disk file untouched;
otherwise the batch is appended and the whole queue persisted. -/
def UsageBatchStore.enqueue (jsonLen : UsageBatch → Nat) (st : BatchStoreState)
    (b : UsageBatch) : Except String Unit × BatchStoreState :=
  if ¬ UsageBatch.size_fits jsonLen b then (.ok (), st)
  else (.ok (), ⟨st.queue ++ [b], st.queue ++ [b]⟩)

def UsageBatchStore.pop (st : BatchStoreState) : Option UsageBatch × BatchStoreState :=
  (st.queue.head?, ⟨st.queue.drop 1, st.queue.drop 1⟩)

def UsageBatchStore.clear_queue (_st : BatchStoreState) : BatchStoreState :=
  ⟨[], []⟩

inductive StoreOp where
  | enq (b : UsageBatch)
  | pop
  | clear

def apply_op (jsonLen : UsageBatch → Nat) (st : BatchStoreState) : StoreOp → BatchStoreState
  | .enq b => (UsageBatchStore.enqueue jsonLen st b).2
  | .pop => (UsageBatchStore.pop st).2
  | .clear => UsageBatchStore.clear_queue st

def apply_ops (jsonLen : UsageBatch → Nat) (st : BatchStoreState)
    (ops : List StoreOp) : BatchStoreState :=
  ops.foldl (apply_op jsonLen) st

theorem apply_op_fits (jsonLen : UsageBatch → Nat) (st : BatchStoreState) (op : StoreOp)
    (h : ∀ c ∈ st.queue, UsageBatch.size_fits jsonLen c = true) :
    ∀ c ∈ (apply_op jsonLen st op).queue, UsageBatch.size_fits jsonLen c = true := by
  intro c hc
  cases op with
  | enq b =>
      simp only [apply_op, UsageBatchStore.enqueue] at hc
      split at hc
      · exact h c hc
      · rename_i hfit
        simp only [Decidable.not_not] at hfit
        simp only [] at hc
        rcases List.mem_append.mp hc with hmem | hmem
        · exact h c hmem
        · simp at hmem
          subst hmem
          exact hfit
  | pop =>
      simp only [apply_op, UsageBatchStore.pop] at hc
      exact h c (List.mem_of_mem_drop hc)
  | clear =>
      simp only [apply_op, UsageBatchStore.clear_queue] at hc
      simp at hc

/-- C8: enqueueing a batch whose serialized form exceeds 1,000,000 bytes
returns success and leaves the queue unchanged in memory and on disk; and
starting from any state whose queued batches all fit, after any sequence of
store operations every queued batch still has serialized form at most
1,000,000 bytes. -/
theorem enqueue_oversized_spec (jsonLen : UsageBatch → Nat) (st : BatchStoreState)
    (b : UsageBatch) (h : UsageBatch.size_fits jsonLen b = false) :
    UsageBatchStore.enqueue jsonLen st b = (.ok (), st)
    ∧ ∀ (st0 : BatchStoreState) (ops : List StoreOp),
        (∀ c ∈ st0.queue, UsageBatch.size_fits jsonLen c = true) →
        ∀ c ∈ (apply_ops jsonLen st0 ops).queue, UsageBatch.size_fits jsonLen c = true := by
  constructor
  · unfold UsageBatchStore.enqueue
    rw [if_pos]
    rw [h]
    simp
  · intro st0 ops
    induction ops generalizing st0 with
    | nil => intro h0; exact h0
    | cons op rest ih =>
        intro h0
        exact ih (apply_op jsonLen st0 op) (apply_op_fits jsonLen st0 op h0)

def c8_batch : UsageBatch :=
  { device_id := "dev"
    sent_at := 0
    sessions := [⟨"a", 0, 5000, 5000, true⟩]
    network_deltas := []
    status := none }

theorem enqueue_oversized_spec_witness :
    UsageBatch.size_fits (fun _ => 2000000) c8_batch = false
    ∧ (UsageBatchStore.enqueue (fun _ => 2000000) ⟨[], []⟩ c8_batch = (.ok (), ⟨[], []⟩)
      ∧ ∀ (st0 : BatchStoreState) (ops : List StoreOp),
          (∀ c ∈ st0.queue, UsageBatch.size_fits (fun _ => 2000000) c = true) →
          ∀ c ∈ (apply_ops (fun _ => 2000000) st0 ops).queue,
            UsageBatch.size_fits (fun _ => 2000000) c = true) :=
  ⟨by decide, enqueue_oversized_spec (fun _ => 2000000) ⟨[], []⟩ c8_batch (by decide)⟩

/-! ## Token store (src/windows-agent/src/auth.rs) -/

structure TokenRecord where
  access_token : String
  refresh_token : String
  issued_at : Int
  expires_in_seconds : Int
deriving DecidableEq

/-- `TokenStore::is_access_token_expired`: an absent record is reported as
not expired (`unwrap_or(false)`); otherwise expiry is
`issued_at + expires_in − 120 s`, compared against `now`. -/
def TokenStore.is_access_token_expired (cache : Option TokenRecord) (now : Int) : Bool :=
  match cache with
  | none => false
  | some t => decide (t.issued_at + t.expires_in_seconds * 1000 - 120000 ≤ now)

/-! ## Upload engine (src/windows-agent/src/uploader.rs)

The HTTP world is an oracle: `postO call attempt` gives the result of the
`attempt`-th raw POST of the `call`-th `execute_request` invocation, and
`refreshO call` gives the HTTP exchange of the `call`-th `try_refresh`
invocation.  `Utc::now()` is a fixed parameter `now` (no claim depends on
time advancing during one `upload_pending` run).  Request bodies do not
influence the oracle, so chunk serialization is not re-modelled here. -/

inductive UploadFailureReason where
  | MissingConfig
  | MissingToken
  | TokenExpired
  | Unauthorized
  | NetworkError
  | ServerError
deriving DecidableEq

structure RequestOutcome where
  success : Bool
  failure : Option UploadFailureReason
  body : Option String
deriving DecidableEq

structure UploadResult where
  uploaded_batches : Nat
  failure_reason : Option UploadFailureReason
deriving DecidableEq

structure UploadConfig where
  base_url : String
  batch_url : String
deriving DecidableEq

/-- One raw HTTP attempt as seen by `execute_request`: either a response
with a status code (and optional text body) or a transport error. -/
inductive AttemptResult where
  | ok (status : Nat) (body : Option String)
  | transportErr
deriving DecidableEq

structure ExecResult where
  outcome : RequestOutcome
  attempts : Nat
  sleeps : List Nat
deriving DecidableEq

def is_success_status (status : Nat) : Bool :=
  decide (200 ≤ status ∧ status < 300)

/-- Status classification of a non-2xx response in `execute_request`. -/
def classify_failure (status : Nat) : UploadFailureReason :=
  if status = 401 then .Unauthorized
  else if status = 408 ∨ (500 ≤ status ∧ status ≤ 504) then .NetworkError
  else .ServerError

/-- The `execute_request` retry loop.  `attempt` counts completed attempts
(the Rust variable after its `attempt += 1`), `fuel` is `max_attempts`
minus completed attempts (always positive at every call site), `sleeps`
records each backoff actually slept. -/
def execute_request_go (att : Nat → AttemptResult) :
    Nat → Nat → Nat → List Nat → ExecResult
  | 0, attempt, _, sleeps =>
      ⟨⟨false, some .NetworkError, none⟩, attempt, sleeps⟩
  | fuel + 1, attempt, backoff, sleeps =>
      match att attempt with
      | .ok status body =>
          if is_success_status status then ⟨⟨true, none, body⟩, attempt + 1, sleeps⟩
          else
            if attempt + 1 < 3 ∧ classify_failure status = .NetworkError then
              execute_request_go att fuel (attempt + 1) (min (backoff * 2) 10000)
                (sleeps ++ [backoff])
            else ⟨⟨false, some (classify_failure status), body⟩, attempt + 1, sleeps⟩
      | .transportErr =>
          if attempt + 1 ≥ 3 then ⟨⟨false, some .NetworkError, none⟩, attempt + 1, sleeps⟩
          else
            execute_request_go att fuel (attempt + 1) (min (backoff * 2) 10000)
              (sleeps ++ [backoff])

def execute_request (att : Nat → AttemptResult) : ExecResult :=
  execute_request_go att 3 0 1000 []

/-- The refresh HTTP response body: `access_token` is required, the other
fields optional; a missing `access_token` or unparseable JSON is
`malformed` (an error in the Rust source). -/
inductive RefreshBody where
  | malformed
  | fields (access_token : String) (refresh_token : Option String) (expires_in : Option Int)
deriving DecidableEq

inductive RefreshResp where
  | transportErr
  | http (status : Nat) (body : RefreshBody)
deriving DecidableEq

/-- The `anyhow` errors that `upload_pending` can propagate in the
embedding: a transport error of the refresh request itself
(`self.client.execute(request).await?`) or a malformed 2xx refresh body
(`serde_json::from_str(&body)?` / missing `access_token`). -/
inductive UploadErr where
  | refreshTransport
  | refreshParse
deriving DecidableEq

structure UploaderState where
  tokens : Option TokenRecord
  post_calls : Nat
  refresh_calls : Nat
  http_attempts : Nat
  sleeps : List Nat
deriving DecidableEq

/-- `UsageUploader::try_refresh`. -/
def try_refresh (refreshO : Nat → RefreshResp) (now : Int) (st : UploaderState) :
    Except UploadErr (Bool × UploaderState) :=
  match st.tokens with
  | none => .ok (false, st)
  | some tok =>
      let st1 : UploaderState :=
        { st with refresh_calls := st.refresh_calls + 1 }
      match refreshO st.refresh_calls with
      | .transportErr => .error .refreshTransport
      | .http status body =>
          if is_success_status status then
            match body with
            | .malformed => .error .refreshParse
            | .fields access refreshTok expiresIn =>
                .ok (true,
                  { st1 with tokens := some ⟨access, refreshTok.getD tok.refresh_token, now, expiresIn.getD 86400⟩ })
          else if status = 401 then .ok (false, { st1 with tokens := none })
          else .ok (false, st1)

inductive PassOut where
  | nextChunk
  | retrySame
  | halt (reason : UploadFailureReason)
deriving DecidableEq

/-- One pass of the inner `while chunk_index < chunks.len()` loop body for
one chunk: token lookup, expiry check (with refresh), POST, and failure
classification.  `retrySame` models `continue` after a successful refresh
(the pass is re-run with `refreshed = true`). -/
def chunk_pass (postO : Nat → Nat → AttemptResult) (refreshO : Nat → RefreshResp)
    (now : Int) (refreshed : Bool) (st : UploaderState) :
    Except UploadErr (PassOut × UploaderState) :=
  match st.tokens with
  | none => .ok (.halt .MissingToken, st)
  | some _ =>
      if TokenStore.is_access_token_expired st.tokens now then
        if ¬ refreshed then
          match try_refresh refreshO now st with
          | .error e => .error e
          | .ok (true, st1) => .ok (.retrySame, st1)
          | .ok (false, st1) => .ok (.halt .TokenExpired, st1)
        else .ok (.halt .TokenExpired, st)
      else
        let er := execute_request (postO st.post_calls)
        let st1 : UploaderState :=
          { st with
            post_calls := st.post_calls + 1
            http_attempts := st.http_attempts + er.attempts
            sleeps := st.sleeps ++ er.sleeps }
        if er.outcome.success then .ok (.nextChunk, st1)
        else
          let reason := er.outcome.failure.getD .ServerError
          if reason = .Unauthorized ∧ ¬ refreshed then
            match try_refresh refreshO now st1 with
            | .error e => .error e
            | .ok (true, st2) => .ok (.retrySame, st2)
            | .ok (false, st2) => .ok (.halt .Unauthorized, { st2 with tokens := none })
          else if reason = .Unauthorized then .ok (.halt .Unauthorized, { st1 with tokens := none })
          else .ok (.halt reason, st1)

/-- The chunk loop of `upload_pending` for one batch.  The remaining chunk
list plays the role of `chunk_index`; at most one retry per chunk can
happen with `refreshed = true` (both `continue`-with-refresh sites are
guarded by `!refreshed`), so the second pass is inlined; its `retrySame`
case is unreachable. -/
def chunks_loop (postO : Nat → Nat → AttemptResult) (refreshO : Nat → RefreshResp)
    (now : Int) :
    List UsageBatch → UploaderState →
      Except UploadErr (Option UploadFailureReason × UploaderState)
  | [], st => .ok (none, st)
  | _c :: rest, st =>
      match chunk_pass postO refreshO now false st with
      | .error e => .error e
      | .ok (.nextChunk, st1) => chunks_loop postO refreshO now rest st1
      | .ok (.halt r, st1) => .ok (some r, st1)
      | .ok (.retrySame, st1) =>
          match chunk_pass postO refreshO now true st1 with
          | .error e => .error e
          | .ok (.nextChunk, st2) => chunks_loop postO refreshO now rest st2
          | .ok (.halt r, st2) => .ok (some r, st2)
          | .ok (.retrySame, st2) => .ok (some .ServerError, st2)

/-- The outer `loop` of `upload_pending`: peek the head, chunk it with the
default limits, deliver the chunks; pop and continue on full success,
return with the failure reason otherwise.  The returned list is the final
queue (`pop` removes the head on success only). -/
def upload_loop (jsonLen : UsageBatch → Nat) (postO : Nat → Nat → AttemptResult)
    (refreshO : Nat → RefreshResp) (now : Int) :
    List UsageBatch → Nat → UploaderState →
      Except UploadErr (UploadResult × List UsageBatch × UploaderState)
  | [], uploaded, st => .ok (⟨uploaded, none⟩, [], st)
  | b :: rest, uploaded, st =>
      let chunks := UsageBatch.chunked jsonLen b DEFAULT_CHUNK_SESSION_LIMIT
        DEFAULT_CHUNK_BYTE_LIMIT
      match chunks_loop postO refreshO now chunks st with
      | .error e => .error e
      | .ok (some r, st1) => .ok (⟨uploaded, some r⟩, b :: rest, st1)
      | .ok (none, st1) =>
          upload_loop jsonLen postO refreshO now rest (uploaded + chunks.length) st1

/-- `UsageUploader::upload_pending`. -/
def upload_pending (jsonLen : UsageBatch → Nat) (postO : Nat → Nat → AttemptResult)
    (refreshO : Nat → RefreshResp) (config : Option UploadConfig)
    (queue : List UsageBatch) (tokens : Option TokenRecord) (now : Int) :
    Except UploadErr (UploadResult × List UsageBatch × UploaderState) :=
  match config with
  | none => .ok (⟨0, some .MissingConfig⟩, queue, ⟨tokens, 0, 0, 0, []⟩)
  | some _ => upload_loop jsonLen postO refreshO now queue 0 ⟨tokens, 0, 0, 0, []⟩

def sample_batch : UsageBatch :=
  { device_id := "dev"
    sent_at := 0
    sessions := [⟨"a", 0, 5000, 5000, true⟩]
    network_deltas := []
    status := none }

def tok_ok : TokenRecord := ⟨"acc", "ref", 0, 86400⟩

def tok_expired : TokenRecord := ⟨"acc", "ref", 0, 0⟩

/-- C10: when the token store holds no record, `is_access_token_expired` is
false for every instant, and `upload_pending` on a non-empty queue (with a
resolvable config) reports `MissingToken` from the access-token lookup —
never `TokenExpired` — leaving the queue untouched. -/
theorem missing_token_reports_missing :
    (∀ now : Int, TokenStore.is_access_token_expired none now = false)
    ∧ ∀ (jsonLen : UsageBatch → Nat) (postO : Nat → Nat → AttemptResult)
        (refreshO : Nat → RefreshResp) (cfg : UploadConfig) (b : UsageBatch)
        (rest : List UsageBatch) (now : Int),
        upload_pending jsonLen postO refreshO (some cfg) (b :: rest) none now =
          .ok (⟨0, some .MissingToken⟩, b :: rest, ⟨none, 0, 0, 0, []⟩) := by
  constructor
  · intro now; rfl
  · intro jsonLen postO refreshO cfg b rest now
    obtain ⟨c, cs, hc⟩ := List.exists_cons_of_ne_nil
      (chunked_ne_nil jsonLen b DEFAULT_CHUNK_SESSION_LIMIT DEFAULT_CHUNK_BYTE_LIMIT)
    show upload_loop jsonLen postO refreshO now (b :: rest) 0 ⟨none, 0, 0, 0, []⟩ = _
    simp only [upload_loop, hc, chunks_loop, chunk_pass]

/-- C5 counterexample: with a valid config, a fresh token, one queued batch
and a server that answers HTTP 500 to every attempt, `upload_pending`
returns `NetworkError` (not `ServerError`), after THREE attempts with
backoff sleeps of 1,000 ms and 2,000 ms (not a single attempt with no
backoff): 500 falls in the `408 ∨ 500..=504` retry class of
`execute_request`. -/
theorem c5_counterexample :
    upload_pending (fun _ => 1) (fun _ _ => .ok 500 none) (fun _ => .transportErr)
        (some ⟨"u", "v"⟩) [sample_batch] (some tok_ok) 0 =
      .ok (⟨0, some .NetworkError⟩, [sample_batch], ⟨some tok_ok, 1, 0, 3, [1000, 2000]⟩)
    ∧ some UploadFailureReason.NetworkError ≠ some UploadFailureReason.ServerError
    ∧ ([1000, 2000] : List Nat) ≠ [] :=
  ⟨rfl, by decide, by decide⟩

/-- C5 amended: when every POST attempt for the head batch's first chunk
returns HTTP 500 (and the token is present and unexpired), `upload_pending`
returns `failure_reason = NetworkError` after exactly three attempts with
backoff sleeps of 1,000 ms and 2,000 ms, and the batch remains at the head
of the queue. -/
theorem upload_500_network_error (jsonLen : UsageBatch → Nat)
    (postO : Nat → Nat → AttemptResult) (refreshO : Nat → RefreshResp)
    (cfg : UploadConfig) (tok : TokenRecord) (b : UsageBatch) (rest : List UsageBatch)
    (now : Int)
    (hexp : TokenStore.is_access_token_expired (some tok) now = false)
    (hpost : postO 0 = fun _ => .ok 500 none) :
    upload_pending jsonLen postO refreshO (some cfg) (b :: rest) (some tok) now =
      .ok (⟨0, some .NetworkError⟩, b :: rest, ⟨some tok, 1, 0, 3, [1000, 2000]⟩) := by
  obtain ⟨c, cs, hc⟩ := List.exists_cons_of_ne_nil
    (chunked_ne_nil jsonLen b DEFAULT_CHUNK_SESSION_LIMIT DEFAULT_CHUNK_BYTE_LIMIT)
  have hexec : execute_request (postO 0) =
      ⟨⟨false, some .NetworkError, none⟩, 3, [1000, 2000]⟩ := by
    rw [hpost]; rfl
  have hpass : chunk_pass postO refreshO now false ⟨some tok, 0, 0, 0, []⟩ =
      .ok (.halt .NetworkError, ⟨some tok, 1, 0, 3, [1000, 2000]⟩) := by
    simp only [chunk_pass, hexp, hexec, Bool.false_eq_true, if_false]
    rfl
  show upload_loop jsonLen postO refreshO now (b :: rest) 0 ⟨some tok, 0, 0, 0, []⟩ = _
  simp only [upload_loop, hc, chunks_loop, hpass]

theorem upload_500_network_error_witness :
    TokenStore.is_access_token_expired (some tok_ok) 5 = false
    ∧ upload_pending (fun _ => 2) (fun _ _ => .ok 500 none) (fun _ => .transportErr)
        (some ⟨"x", "y"⟩) [sample_batch, sample_batch] (some tok_ok) 5 =
      .ok (⟨0, some .NetworkError⟩, [sample_batch, sample_batch],
        ⟨some tok_ok, 1, 0, 3, [1000, 2000]⟩) :=
  ⟨by decide,
    upload_500_network_error (fun _ => 2) (fun _ _ => .ok 500 none) (fun _ => .transportErr)
      ⟨"x", "y"⟩ tok_ok sample_batch [sample_batch] 5 (by decide) rfl⟩

/-- C6: with a valid config and an unexpired token, a 401 on the first POST
of the head batch triggers a token refresh (one refresh call) and, on
refresh success, a retry of the same chunk (a second POST); when that retry
also returns 401 — a 401 after a refresh has already occurred for this
batch — the token store is cleared, `upload_pending` returns
`failure_reason = Unauthorized`, and the queue is unchanged. -/
theorem upload_401_refresh_then_unauthorized (jsonLen : UsageBatch → Nat)
    (postO : Nat → Nat → AttemptResult) (refreshO : Nat → RefreshResp)
    (cfg : UploadConfig) (tok : TokenRecord) (b : UsageBatch) (rest : List UsageBatch)
    (now : Int) (access : String) (refreshTok : Option String) (expiresIn : Option Int)
    (hexp : TokenStore.is_access_token_expired (some tok) now = false)
    (hpost0 : postO 0 = fun _ => .ok 401 none)
    (hpost1 : postO 1 = fun _ => .ok 401 none)
    (hrefresh : refreshO 0 = .http 200 (.fields access refreshTok expiresIn))
    (hexp2 : TokenStore.is_access_token_expired
        (some ⟨access, refreshTok.getD tok.refresh_token, now, expiresIn.getD 86400⟩) now
        = false) :
    upload_pending jsonLen postO refreshO (some cfg) (b :: rest) (some tok) now =
      .ok (⟨0, some .Unauthorized⟩, b :: rest, ⟨none, 2, 1, 2, []⟩) := by
  obtain ⟨c, cs, hc⟩ := List.exists_cons_of_ne_nil
    (chunked_ne_nil jsonLen b DEFAULT_CHUNK_SESSION_LIMIT DEFAULT_CHUNK_BYTE_LIMIT)
  have hexec0 : execute_request (postO 0) =
      ⟨⟨false, some .Unauthorized, none⟩, 1, []⟩ := by
    rw [hpost0]; rfl
  have hexec1 : execute_request (postO 1) =
      ⟨⟨false, some .Unauthorized, none⟩, 1, []⟩ := by
    rw [hpost1]; rfl
  have hrefr : try_refresh refreshO now ⟨some tok, 1, 0, 1, []⟩ =
      .ok (true, ⟨some ⟨access, refreshTok.getD tok.refresh_token, now,
        expiresIn.getD 86400⟩, 1, 1, 1, []⟩) := by
    simp only [try_refresh, hrefresh]
    rfl
  have hpass0 : chunk_pass postO refreshO now false ⟨some tok, 0, 0, 0, []⟩ =
      .ok (.retrySame, ⟨some ⟨access, refreshTok.getD tok.refresh_token, now,
        expiresIn.getD 86400⟩, 1, 1, 1, []⟩) := by
    simp only [chunk_pass, hexp, hexec0, Bool.false_eq_true, if_false]
    simp only [List.append_nil]
    rw [hrefr]
    rfl
  have hpass1 : chunk_pass postO refreshO now true
      ⟨some ⟨access, refreshTok.getD tok.refresh_token, now, expiresIn.getD 86400⟩,
        1, 1, 1, []⟩ =
      .ok (.halt .Unauthorized, ⟨none, 2, 1, 2, []⟩) := by
    simp only [chunk_pass, hexp2, hexec1, Bool.false_eq_true, if_false]
    rfl
  show upload_loop jsonLen postO refreshO now (b :: rest) 0 ⟨some tok, 0, 0, 0, []⟩ = _
  simp only [upload_loop, hc, chunks_loop, hpass0, hpass1]

theorem upload_401_refresh_witness :
    TokenStore.is_access_token_expired (some tok_ok) 0 = false
    ∧ upload_pending (fun _ => 1) (fun _ _ => .ok 401 none)
        (fun _ => .http 200 (.fields "acc2" none none)) (some ⟨"u", "v"⟩)
        [sample_batch] (some tok_ok) 0 =
      .ok (⟨0, some .Unauthorized⟩, [sample_batch], ⟨none, 2, 1, 2, []⟩) :=
  ⟨by decide,
    upload_401_refresh_then_unauthorized (fun _ => 1) (fun _ _ => .ok 401 none)
      (fun _ => .http 200 (.fields "acc2" none none)) ⟨"u", "v"⟩ tok_ok sample_batch [] 0
      "acc2" none none (by decide) rfl rfl rfl (by decide)⟩

/-- A refresh HTTP exchange that the uploader can digest without
propagating an `anyhow` error: not a transport error, and if 2xx then the
body parses (has an `access_token`). -/
def refresh_resp_wellformed : RefreshResp → Prop
  | .transportErr => False
  | .http status body => is_success_status status = true → body ≠ .malformed

theorem try_refresh_ok (refreshO : Nat → RefreshResp) (now : Int) (st : UploaderState)
    (h : ∀ i, refresh_resp_wellformed (refreshO i)) :
    ∃ r, try_refresh refreshO now st = .ok r := by
  unfold try_refresh
  cases htok : st.tokens with
  | none => exact ⟨_, rfl⟩
  | some tok =>
      have hw := h st.refresh_calls
      cases hr : refreshO st.refresh_calls with
      | transportErr =>
          rw [hr] at hw
          exact hw.elim
      | http status body =>
          rw [hr] at hw
          simp only [refresh_resp_wellformed] at hw
          by_cases hs : is_success_status status = true
          · cases body with
            | malformed => exact absurd rfl (hw hs)
            | fields a r e =>
                simp only [hs, if_true]
                exact ⟨_, rfl⟩
          · simp only [Bool.not_eq_true] at hs
            simp only [hs, Bool.false_eq_true, if_false]
            split
            · exact ⟨_, rfl⟩
            · exact ⟨_, rfl⟩

theorem chunk_pass_ok (postO : Nat → Nat → AttemptResult) (refreshO : Nat → RefreshResp)
    (now : Int) (refreshed : Bool) (st : UploaderState)
    (h : ∀ i, refresh_resp_wellformed (refreshO i)) :
    ∃ r, chunk_pass postO refreshO now refreshed st = .ok r := by
  simp only [chunk_pass]
  cases htok : st.tokens with
  | none => exact ⟨_, rfl⟩
  | some tok =>
      dsimp only
      split
      · split
        · obtain ⟨r, hr⟩ := try_refresh_ok refreshO now st h
          rw [hr]
          rcases r with ⟨flag, st1⟩
          cases flag
          · exact ⟨_, rfl⟩
          · exact ⟨_, rfl⟩
        · exact ⟨_, rfl⟩
      · split
        · exact ⟨_, rfl⟩
        · split
          · obtain ⟨r, hr⟩ := try_refresh_ok refreshO now _ h
            rw [hr]
            rcases r with ⟨flag, st2⟩
            cases flag
            · exact ⟨_, rfl⟩
            · exact ⟨_, rfl⟩
          · split
            · exact ⟨_, rfl⟩
            · exact ⟨_, rfl⟩

theorem chunks_loop_ok (postO : Nat → Nat → AttemptResult) (refreshO : Nat → RefreshResp)
    (now : Int) (h : ∀ i, refresh_resp_wellformed (refreshO i)) :
    ∀ (chunks : List UsageBatch) (st : UploaderState),
      ∃ r, chunks_loop postO refreshO now chunks st = .ok r := by
  intro chunks
  induction chunks with
  | nil => intro st; exact ⟨_, rfl⟩
  | cons c rest ih =>
      intro st
      obtain ⟨r1, hr1⟩ := chunk_pass_ok postO refreshO now false st h
      simp only [chunks_loop, hr1]
      rcases r1 with ⟨out1, st1⟩
      cases out1 with
      | nextChunk => exact ih st1
      | halt r => exact ⟨_, rfl⟩
      | retrySame =>
          obtain ⟨r2, hr2⟩ := chunk_pass_ok postO refreshO now true st1 h
          simp only [hr2]
          rcases r2 with ⟨out2, st2⟩
          cases out2 with
          | nextChunk => exact ih st2
          | halt r => exact ⟨_, rfl⟩
          | retrySame => exact ⟨_, rfl⟩

theorem upload_loop_ok (jsonLen : UsageBatch → Nat) (postO : Nat → Nat → AttemptResult)
    (refreshO : Nat → RefreshResp) (now : Int)
    (h : ∀ i, refresh_resp_wellformed (refreshO i)) :
    ∀ (queue : List UsageBatch) (uploaded : Nat) (st : UploaderState),
      ∃ r, upload_loop jsonLen postO refreshO now queue uploaded st = .ok r := by
  intro queue
  induction queue with
  | nil => intro uploaded st; exact ⟨_, rfl⟩
  | cons b rest ih =>
      intro uploaded st
      obtain ⟨r1, hr1⟩ := chunks_loop_ok postO refreshO now h
        (UsageBatch.chunked jsonLen b DEFAULT_CHUNK_SESSION_LIMIT DEFAULT_CHUNK_BYTE_LIMIT) st
      simp only [upload_loop, hr1]
      rcases r1 with ⟨res, st1⟩
      cases res with
      | some r => exact ⟨_, rfl⟩
      | none => exact ih _ st1

/-- C9 counterexample: an expired token forces a refresh; when the refresh
request itself hits a transport error, `try_refresh`'s
`self.client.execute(request).await?` propagates, so `upload_pending`
returns an error instead of a structured `UploadResult`. -/
theorem c9_counterexample :
    upload_pending (fun _ => 1) (fun _ _ => .ok 200 none) (fun _ => .transportErr)
        (some ⟨"u", "v"⟩) [sample_batch] (some tok_expired) 1000000 =
      .error .refreshTransport := rfl

/-- C9 amended: for every condition in the failure taxonomy — missing
config, missing token, expired token (with refresh absent or answered
non-2xx), 401 after refresh, network error, server error —
`upload_pending` returns `.ok` with a structured `UploadResult`, PROVIDED
every refresh HTTP exchange is well-formed (no transport error and no
malformed 2xx body); a transport error during the refresh request itself,
or a 2xx refresh response without a parseable `access_token`, propagates as
an error. -/
theorem upload_pending_no_error (jsonLen : UsageBatch → Nat)
    (postO : Nat → Nat → AttemptResult) (refreshO : Nat → RefreshResp)
    (config : Option UploadConfig) (queue : List UsageBatch)
    (tokens : Option TokenRecord) (now : Int)
    (h : ∀ i, refresh_resp_wellformed (refreshO i)) :
    ∃ out, upload_pending jsonLen postO refreshO config queue tokens now = .ok out := by
  cases config with
  | none => exact ⟨_, rfl⟩
  | some cfg => exact upload_loop_ok jsonLen postO refreshO now h queue 0 _

theorem upload_pending_no_error_witness :
    (∀ i : Nat, refresh_resp_wellformed
        ((fun _ => RefreshResp.http 400 (RefreshBody.fields "x" none none)) i))
    ∧ ∃ out, upload_pending (fun _ => 1) (fun _ _ => .ok 200 none)
        (fun _ => RefreshResp.http 400 (RefreshBody.fields "x" none none))
        (some ⟨"u", "v"⟩) [sample_batch] (some tok_ok) 0 = .ok out := by
  have h : ∀ i : Nat, refresh_resp_wellformed
      ((fun _ => RefreshResp.http 400 (RefreshBody.fields "x" none none)) i) := by
    intro i
    simp only [refresh_resp_wellformed]
    intro _
    decide
  exact ⟨h, upload_pending_no_error (fun _ => 1) (fun _ _ => .ok 200 none)
    (fun _ => RefreshResp.http 400 (RefreshBody.fields "x" none none))
    (some ⟨"u", "v"⟩) [sample_batch] (some tok_ok) 0 h⟩
